import Mathlib

/-!
Verification of the stLearn CCI core (`stlearn/tools/microenv/cci/het.py` and
`stlearn/tools/microenv/cci/analysis.py`) against its specification.

Python floats are modelled as rationals (`ℚ`), numpy arrays as lists, and
boolean-mask indexing (`arr[mask]`) as `maskFilter`.  Spot barcodes are
strings, spot indices natural numbers.
-/

namespace StLearn

/-- numpy boolean-mask indexing `xs[mask]`: keep `xs[i]` where `mask[i]` holds. -/
def maskFilter {α : Type} (xs : List α) (mask : List Bool) : List α :=
  ((xs.zip mask).filter (fun p => p.2)).map (fun p => p.1)

/-- Transparent specification of first-occurrence deduplication under an
equivalence test `eqv`: keep the head, drop every later element equivalent to
it, recurse. -/
def dedupSpec {α : Type} (eqv : α → α → Bool) : List α → List α
  | [] => []
  | a :: l => a :: dedupSpec eqv (l.filter (fun b => !eqv a b))
termination_by l => l.length
decreasing_by
  simp only [List.length_cons]
  exact Nat.lt_succ_of_le (List.length_filter_le _ _)

/-- An edge is an ordered pair of spot barcodes (source, destination). -/
abbrev Edge : Type := String × String

/-- Edge equality test of `get_between_spot_edge_array`'s dedup loop
(het.py lines 185-191): directed compares componentwise; undirected also
identifies an edge with its reverse. -/
def edgeEq (undirected : Bool) (e1 e2 : Edge) : Bool :=
  if undirected then
    (e1.1 == e2.1 && e1.2 == e2.2) || (e1.2 == e2.1 && e1.1 == e2.2)
  else
    e1.1 == e2.1 && e1.2 == e2.2

/-- The cell-type membership test of `get_between_spot_edge_array`
(het.py lines 162-164): `interact_bool = cell_data[idx, :] > cutoff;
interact_bool.sum() == cell_data.shape[1]` — the number of entries of the
row strictly above `cutoff` equals the column count `ncols`. -/
def interactPass (cell_data : List (List ℚ)) (ncols : ℕ) (cutoff : ℚ)
    (idx : ℕ) : Bool :=
  ((cell_data.getD idx []).countP (fun v => decide (cutoff < v))) == ncols

/-- Edge-construction phase of `get_between_spot_edge_array`
(het.py lines 146-174), before deduplication.  For each neighbourhood
(spot barcode, neighbour barcodes, neighbour indices): keep neighbours
where `neigh_bool` holds, then (when `count_cell_types`) those passing the
all-columns cutoff test, and emit one (spot, neighbour) edge each. -/
def buildEdges (neighbourhood_bcs : List (String × List String))
    (neighbourhood_indices : List (ℕ × List ℕ)) (neigh_bool : List Bool)
    (count_cell_types : Bool) (cell_data : List (List ℚ)) (ncols : ℕ)
    (cutoff : ℚ) : List Edge :=
  (neighbourhood_bcs.zip neighbourhood_indices).flatMap (fun entry =>
    let spot_bc := entry.1.1
    let pairs := (entry.1.2.zip entry.2.2).filter
      (fun p => neigh_bool.getD p.2 false)
    let kept := if count_cell_types then
        pairs.filter (fun p => interactPass cell_data ncols cutoff p.2)
      else pairs
    kept.map (fun p => (spot_bc, p.1)))

/-- Inner marking pass of the dedup loop (het.py lines 183-191): starting
from edge `e`, flag every later edge equal to it under the direction
semantics. -/
def markFrom (undirected : Bool) (e : Edge) (rest : List (Edge × Bool)) :
    List (Edge × Bool) :=
  rest.map (fun p => (p.1, p.2 || edgeEq undirected e p.1))

/-- Outer dedup loop of `get_between_spot_edge_array` (het.py lines
177-191) on edges paired with their `edge_added` flag: skip flagged
edges, keep unflagged ones and flag their later duplicates.  The Python
loop runs `for i in range(n_edges)`; the fuel argument carries that
bound (it never runs out when started at the list length). -/
def dedupLoop (undirected : Bool) : ℕ → List (Edge × Bool) → List Edge
  | _, [] => []
  | 0, _ :: _ => []
  | fuel + 1, (e, added) :: rest =>
    if added then dedupLoop undirected fuel rest
    else e :: dedupLoop undirected fuel (markFrom undirected e rest)

/-- The dedup phase of `get_between_spot_edge_array`: all `edge_added`
flags start false (`np.zeros(...) == 1`). -/
def pyDedup (undirected : Bool) (edges : List Edge) : List Edge :=
  dedupLoop undirected edges.length (edges.map (fun e => (e, false)))

/-- `get_between_spot_edge_array` (het.py lines 130-193): enumerate
candidate edges from the neighbourhoods, then keep the first occurrence of
each duplicate class. -/
def get_between_spot_edge_array (neighbourhood_bcs : List (String × List String))
    (neighbourhood_indices : List (ℕ × List ℕ)) (neigh_bool : List Bool)
    (count_cell_types : Bool) (cell_data : List (List ℚ)) (ncols : ℕ)
    (cutoff : ℚ) (undirected : Bool) : List Edge :=
  pyDedup undirected
    (buildEdges neighbourhood_bcs neighbourhood_indices neigh_bool
      count_cell_types cell_data ncols cutoff)

/-- Final dedup of `get_edges` (het.py lines 122-126): the Python
`for edge in all_edges: if edge not in all_edges_unique: append` loop. -/
def getEdgesUnique (all_edges : List Edge) : List Edge :=
  all_edges.foldl (fun acc e => if e ∈ acc then acc else acc ++ [e]) []

/-! ## `count` (het.py lines 8-76): neighbour radius and ball query -/

/-- Radius resolution at the top of `count` (het.py lines 30-43).
`distance != 0` selects the between-spot branch; there, a falsy
(`None`) distance is replaced by
`spot_diameter_fullres * tissue_<quality>_scalef * 2`.  `none` result
means the within-spot branch (no radius is used). -/
def count_radius (distance : Option ℚ) (spot_diameter_fullres : ℚ)
    (tissue_scalef : ℚ) : Option ℚ :=
  if distance = some 0 then none
  else some (match distance with
    | none => spot_diameter_fullres * tissue_scalef * 2
    | some d => d)

/-- Squared Euclidean distance between two coordinate pairs. -/
def sqDist (p q : ℚ × ℚ) : ℚ := (p.1 - q.1) ^ 2 + (p.2 - q.2) ^ 2

/-- `scipy.spatial.cKDTree.query_ball_point(x, r)`: indices of all points
within distance `r` of `x` (inclusive). -/
def query_ball_point (coords : List (ℚ × ℚ)) (x : ℚ × ℚ) (r : ℚ) : List ℕ :=
  (List.range coords.length).filter
    (fun j => decide (sqDist (coords.getD j (0, 0)) x ≤ r ^ 2))

/-- The neighbour index list `n_index` computed by `count` for one spot
(het.py lines 49-57): a ball query around the spot's own coordinates. -/
def count_neighbours (coords : List (ℚ × ℚ)) (r : ℚ) (i : ℕ) : List ℕ :=
  query_ball_point coords (coords.getD i (0, 0)) r

/-! ## `create_grids` (het.py lines 369-424): grid neighbourhoods -/

/-- `range a b` over integers, as Python's `range(a, b)`. -/
def intRange (a b : ℤ) : List ℤ :=
  (List.range (b - a).toNat).map (fun k : ℕ => a + (k : ℤ))

/-- Entry `a[i][j]` of `np.arange(num_row*num_col).reshape(num_col,
num_row).T` guarded by the bounds test of `create_grids` (het.py lines
405-412): `j * num_row + i` in bounds, `-1` outside. -/
def gridVal (num_row num_col : ℕ) (i j : ℤ) : ℤ :=
  if 0 ≤ i ∧ i < (num_row : ℤ) ∧ 0 ≤ j ∧ j < (num_col : ℤ) then
    j * (num_row : ℤ) + i
  else -1

/-- The flattened `nb_matrix` candidate list for grid `n` (het.py lines
402-414): all `gridVal` entries for `i` in `[row-radius, row+radius]` and
`j` in `[col-radius, col+radius]`, where `row = n % num_row`,
`col = n // num_row`. -/
def gridNeighCandidates (num_row num_col radius n : ℕ) : List ℤ :=
  let row : ℤ := (n : ℤ) % (num_row : ℤ)
  let col : ℤ := (n : ℤ) / (num_row : ℤ)
  (intRange (row - radius) (row + 1 + radius)).flatMap (fun i =>
    (intRange (col - radius) (col + 1 + radius)).map
      (fun j => gridVal num_row num_col i j))

/-- Membership in grid `n`'s neighbour set (het.py lines 415-422): the
candidates are passed through a Python `set` (so only membership is
defined) and then filtered by `not (grid == n and radius > 0)` and
`grid != -1`. -/
def gridNeighMem (num_row num_col radius n : ℕ) (g : ℤ) : Bool :=
  decide (g ∈ gridNeighCandidates num_row num_col radius n) &&
    !(g == (n : ℤ) && decide (0 < radius)) && g != (-1 : ℤ)

/-! ## `count_core` (het.py lines 195-297) -/

/-- One element of `count_core`'s `edge_list`: the within-spot branch
stores bare barcodes (`(adata.obs_names[index])` is a parenthesised
string, not a tuple), the between-spot branches store (source,
destination) pairs. -/
inductive EdgeEntry : Type
  | single (bc : String)
  | pair (src dst : String)
deriving DecidableEq, Repr

/-- Inputs read by `count_core` from its arguments and from the `adata`
object.  `mix_props` models `adata.uns[uns_key].loc[:, label_set].values`
(the mixture-proportion matrix already restricted to `label_set`
columns), `cell_types` models `adata.obs[obs_key].values` for absolute
mode, and `mix_mode` models `spot_mixtures and uns_key in adata.uns`. -/
structure CountCoreInput : Type where
  obs_names : List String
  neighbours : List (List ℕ)
  spot_indices : List ℕ
  neigh_bool : List Bool
  mix_props : List (List ℚ)
  cutoff : ℚ
  mix_mode : Bool
  cell_types : List String
  label_set : List String
deriving Repr

/-- `neighbourhood_indices` built by `count_core` (het.py lines 240-241):
`(spot_i, neighbours[spot_i])` for each enumerated spot. -/
def ccNeighbourhoodIndices (inp : CountCoreInput) : List (ℕ × List ℕ) :=
  inp.spot_indices.map (fun i => (i, inp.neighbours.getD i []))

/-- `neighbourhood_bcs` built by `count_core` (het.py lines 242-243):
the same neighbourhoods as barcodes. -/
def ccNeighbourhoodBcs (inp : CountCoreInput) : List (String × List String) :=
  inp.spot_indices.map (fun i =>
    (inp.obs_names.getD i "",
     (inp.neighbours.getD i []).map (fun j => inp.obs_names.getD j "")))

/-- The branch test of `count_core`'s mixture mode (het.py lines
256-257): `np.all([spot_i in neighs for spot_i, neighs in
neighbourhood_indices])` — every enumerated spot appears in its own
neighbour list. -/
def ccWithinConfig (inp : CountCoreInput) : Bool :=
  (ccNeighbourhoodIndices inp).all (fun p => p.2.contains p.1)

/-- The `spots` mask of the within-spot short-circuit (het.py lines
262-264): `sig_spot_bool` is all-false with the enumerated spot indices
set true (modelled positionally as membership in `spot_indices`),
conjoined elementwise with `neigh_bool`. -/
def ccSpotsMask (inp : CountCoreInput) : List Bool :=
  List.zipWith (fun a b => a && b)
    ((List.range inp.neigh_bool.length).map
      (fun i => inp.spot_indices.contains i))
    inp.neigh_bool

/-- The `counts` vector of the within-spot short-circuit (het.py lines
267-268): per selected spot, the number of labels whose proportion
exceeds the cutoff. -/
def ccWithinCounts (inp : CountCoreInput) : List ℕ :=
  (maskFilter inp.mix_props (ccSpotsMask inp)).map
    (fun row => row.countP (fun v => decide (inp.cutoff < v)))

/-- The within-spot short-circuit's `edge_list` (het.py lines 269-270):
one barcode per selected spot with a positive count.  Note the Python
indexes `obs_names` by positions relative to the `spots` subset; the
model reproduces that. -/
def ccWithinEdgeList (inp : CountCoreInput) : List String :=
  ((List.range (ccWithinCounts inp).length).filter
    (fun k => decide (0 < (ccWithinCounts inp).getD k (0 : ℕ)))).map
    (fun k => inp.obs_names.getD k "")

/-- The one-hot `prop_vals` matrix of `count_core`'s absolute mode
(het.py lines 286-289): entry (spot, label) is 1 when that spot's cell
type equals the label, else 0. -/
def ccOneHot (cell_types : List String) (label_set : List String) :
    List (List ℚ) :=
  cell_types.map (fun ct => label_set.map (fun l => if ct == l then (1 : ℚ) else 0))

/-- `count_core`'s `edge_list` (het.py lines 248-292), reached only when
`spot_indices` is nonempty.  Mixture mode short-circuits to the per-spot
rule when every enumerated spot's neighbour list contains itself,
otherwise calls `get_between_spot_edge_array` (undirected, with the
mixture proportions and the given cutoff); absolute mode always calls it
with the one-hot matrix and the default cutoff 0. -/
def ccEdgeEntries (inp : CountCoreInput) : List EdgeEntry :=
  if inp.mix_mode then
    if ccWithinConfig inp then (ccWithinEdgeList inp).map EdgeEntry.single
    else
      (get_between_spot_edge_array (ccNeighbourhoodBcs inp)
        (ccNeighbourhoodIndices inp) inp.neigh_bool true inp.mix_props
        inp.label_set.length inp.cutoff true).map
        (fun e => EdgeEntry.pair e.1 e.2)
  else
    (get_between_spot_edge_array (ccNeighbourhoodBcs inp)
      (ccNeighbourhoodIndices inp) inp.neigh_bool true
      (ccOneHot inp.cell_types inp.label_set) inp.label_set.length 0 true).map
      (fun e => EdgeEntry.pair e.1 e.2)

/-- `count_core` (het.py lines 195-297): empty `spot_indices` returns the
empty list / zero immediately (lines 220-222); otherwise the edge list
(or its length) is returned according to `return_edges`. -/
def count_core (inp : CountCoreInput) (return_edges : Bool) :
    Sum (List EdgeEntry) ℕ :=
  if inp.spot_indices.length = 0 then
    if return_edges then Sum.inl [] else Sum.inr 0
  else
    if return_edges then Sum.inl (ccEdgeEntries inp)
    else Sum.inr (ccEdgeEntries inp).length

/-! ## `run` (analysis.py lines 16-86)

`calc_distance`, `calc_neighbours`, `get_lrs_scores` and
`perform_spot_testing` live in `base.py` / `permutation.py`, outside the
analysed sources; their outputs (`neighbours`, the score matrix and pair
list, and the state written by the testing stage) enter the model as
parameters, so the control flow and writes below are exactly those of
`run` itself. -/

/-- The LR-pair filter of `run` (analysis.py lines 72-74):
`lr_bool = (lr_scores > 0).sum(axis=0) > min_spots`, then
`lrs[lr_bool]` and `lr_scores[:, lr_bool]`.  The score matrix is
modelled column-wise: one list of per-spot scores per LR pair, so the
column mask applies `maskFilter` to both lists. -/
def lr_filter (lrs : List String) (lr_score_cols : List (List ℚ))
    (min_spots : ℕ) : List String × List (List ℚ) :=
  let lr_bool := lr_score_cols.map
    (fun col => decide (min_spots < col.countP (fun v => decide (0 < v))))
  (maskFilter lrs lr_bool, maskFilter lr_score_cols lr_bool)

/-- The slots of the `adata` object that `run` touches:
`adata.obsm['spot_neighbours']`, `adata.obsm[use_het]`, and the
LR-testing outputs written by `perform_spot_testing`
(`adata.uns['lr_summary']` and the per-LR result matrices). -/
structure Adata : Type where
  spot_neighbours : Option (List String)
  het : Option (List ℚ)
  lr_summary : Option (List (String × ℕ × ℕ))
  per_lr_results : Option (List String)
deriving DecidableEq, Repr

/-- How `run` returns: normal completion, or the early `return` after
printing "Exiting due to lack of valid LR pairs." (analysis.py lines
77-79). -/
inductive RunResult : Type
  | completed
  | earlyExit (msg : String)
deriving DecidableEq, Repr

/-- `run` (analysis.py lines 16-86).  It always stores the
comma-joined neighbour indices in `adata.obsm['spot_neighbours']` (line
50), stores heterogeneity values when `use_label` names data in
`adata.uns` (lines 57-63), filters the LR pairs, and either exits early
when none remain (lines 77-79) or hands the state to the testing stage
(modelled by the `testingWrite` parameter). -/
def run (neighbours : List (List ℕ)) (cell_het : Bool) (het_vals : List ℚ)
    (lrs : List String) (lr_score_cols : List (List ℚ)) (min_spots : ℕ)
    (testingWrite : Adata → Adata) (a : Adata) : Adata × RunResult :=
  let joined := neighbours.map (fun xs => String.intercalate "," (xs.map toString))
  let a1 := { a with spot_neighbours := some joined }
  let a2 := if cell_het then { a1 with het := some het_vals } else a1
  let filtered := lr_filter lrs lr_score_cols min_spots
  if filtered.1.length = 0 then
    (a2, RunResult.earlyExit "Exiting due to lack of valid LR pairs.")
  else
    (testingWrite a2, RunResult.completed)

/-! ## `run_cci` (analysis.py lines 116-218) -/

/-- The prior-results guard of `run_cci` (analysis.py lines 137-141):
`ran_lr = 'lr_summary' in adata.uns`,
`ran_sig = False if not ran_lr else 'n_spots_sig' in
adata.uns['lr_summary'].columns`, and the exception fires on
`not ran_lr and not ran_sig`. -/
def run_cci_raises (uns_keys : List String) (lr_summary_cols : List String) :
    Bool :=
  let ran_lr := uns_keys.contains "lr_summary"
  let ran_sig := if !ran_lr then false else lr_summary_cols.contains "n_spots_sig"
  !ran_lr && !ran_sig

/-- The significance-zeroed matrix of `run_cci` (analysis.py lines
195-196): a copy of `int_matrix` with cells whose p-value exceeds
`p_cutoff` set to 0. -/
def sigIntMatrix {n : ℕ} (int_matrix : Fin n → Fin n → ℤ)
    (int_pvals : Fin n → Fin n → ℚ) (p_cutoff : ℚ) : Fin n → Fin n → ℤ :=
  fun i j => if p_cutoff < int_pvals i j then 0 else int_matrix i j

/-- Accumulator state of `run_cci`'s main loop over `best_lrs`:
the two aggregate matrices and the three per-LR dictionaries
(analysis.py lines 171-177), dictionaries as insertion-ordered lists. -/
structure CCIAccum (n : ℕ) : Type where
  all_matrix : Fin n → Fin n → ℤ
  raw_matrix : Fin n → Fin n → ℤ
  per_lr_cci : List (String × (Fin n → Fin n → ℤ))
  per_lr_cci_pvals : List (String × (Fin n → Fin n → ℚ))
  per_lr_cci_raw : List (String × (Fin n → Fin n → ℤ))

/-- One iteration of `run_cci`'s loop (analysis.py lines 178-205) for a
pair `lr`.  `intMat` and `pvals` model `get_interaction_matrix` and
`get_interaction_pvals` (imported from elsewhere in the package), passed
as parameters. -/
def run_cci_step {n : ℕ} (intMat : String → Fin n → Fin n → ℤ)
    (pvals : String → Fin n → Fin n → ℚ) (p_cutoff : ℚ)
    (acc : CCIAccum n) (lr : String) : CCIAccum n :=
  let int_matrix := intMat lr
  let int_pvals := pvals lr
  let sig_int_matrix := sigIntMatrix int_matrix int_pvals p_cutoff
  { all_matrix := fun i j => acc.all_matrix i j + sig_int_matrix i j
    raw_matrix := fun i j => acc.raw_matrix i j + int_matrix i j
    per_lr_cci := acc.per_lr_cci ++ [(lr, sig_int_matrix)]
    per_lr_cci_pvals := acc.per_lr_cci_pvals ++ [(lr, int_pvals)]
    per_lr_cci_raw := acc.per_lr_cci_raw ++ [(lr, int_matrix)] }

/-- `run_cci`'s matrix-accumulation loop (analysis.py lines 171-205):
both aggregates start at `np.zeros` and the dictionaries empty. -/
def run_cci_loop {n : ℕ} (best_lrs : List String)
    (intMat : String → Fin n → Fin n → ℤ)
    (pvals : String → Fin n → Fin n → ℚ) (p_cutoff : ℚ) : CCIAccum n :=
  best_lrs.foldl (run_cci_step intMat pvals p_cutoff)
    { all_matrix := fun _ _ => 0
      raw_matrix := fun _ _ => 0
      per_lr_cci := []
      per_lr_cci_pvals := []
      per_lr_cci_raw := [] }

/-! ## Lemmas about the dedup phase -/

theorem filter_markFrom (und : Bool) (e : Edge) (rest : List (Edge × Bool)) :
    ((markFrom und e rest).filter (fun p => !p.2)).map Prod.fst =
      ((rest.filter (fun p => !p.2)).map Prod.fst).filter
        (fun b => !edgeEq und e b) := by
  induction rest with
  | nil => rfl
  | cons p rest ih =>
    obtain ⟨e2, flag⟩ := p
    simp only [markFrom, List.map_cons, List.filter_cons] at *
    cases flag <;> cases h : edgeEq und e e2 <;>
      simp [h, ih, List.filter_cons, markFrom]

theorem dedupLoop_eq_dedupSpec (und : Bool) (fuel : ℕ) :
    ∀ s : List (Edge × Bool), s.length ≤ fuel →
      dedupLoop und fuel s =
        dedupSpec (edgeEq und) ((s.filter (fun p => !p.2)).map Prod.fst) := by
  induction fuel with
  | zero =>
    intro s hs
    cases s with
    | nil => simp [dedupLoop, dedupSpec]
    | cons p rest => simp at hs
  | succ fuel ih =>
    intro s hs
    cases s with
    | nil => simp [dedupLoop, dedupSpec]
    | cons p rest =>
      obtain ⟨e, added⟩ := p
      have hrest : rest.length ≤ fuel := by
        simpa using Nat.le_of_succ_le_succ (by simpa using hs)
      cases added with
      | true =>
        have hd : dedupLoop und (fuel + 1) ((e, true) :: rest) =
            dedupLoop und fuel rest := by
          rw [dedupLoop]
          simp
        have hfc : ((e, true) :: rest).filter (fun p => !p.2) =
            rest.filter (fun p => !p.2) := by
          rw [List.filter_cons]
          simp
        rw [hd, hfc]
        exact ih rest hrest
      | false =>
        have hd : dedupLoop und (fuel + 1) ((e, false) :: rest) =
            e :: dedupLoop und fuel (markFrom und e rest) := by
          rw [dedupLoop]
          simp
        have hfc : ((e, false) :: rest).filter (fun p => !p.2) =
            (e, false) :: rest.filter (fun p => !p.2) := by
          rw [List.filter_cons]
          simp
        rw [hd, hfc, List.map_cons, dedupSpec]
        have hm : (markFrom und e rest).length ≤ fuel := by
          simpa [markFrom] using hrest
        rw [ih (markFrom und e rest) hm, filter_markFrom]

theorem pyDedup_eq_dedupSpec (und : Bool) (edges : List Edge) :
    pyDedup und edges = dedupSpec (edgeEq und) edges := by
  rw [pyDedup, dedupLoop_eq_dedupSpec und edges.length _ (by simp)]
  congr 1
  induction edges with
  | nil => rfl
  | cons e l ih => simp [List.filter_cons, ih]

theorem mem_of_mem_dedupSpec {α : Type} (eqv : α → α → Bool) (l : List α)
    (a : α) (h : a ∈ dedupSpec eqv l) : a ∈ l := by
  revert h
  generalize hn : l.length = n
  induction n using Nat.strong_induction_on generalizing l with
  | _ n ih =>
    match l with
    | [] =>
      intro h
      simp [dedupSpec] at h
    | x :: l' =>
      intro h
      rw [dedupSpec] at h
      rcases List.mem_cons.mp h with h1 | h2
      · exact h1 ▸ List.mem_cons_self x l'
      · subst hn
        have hlen : (l'.filter (fun b => !eqv x b)).length < (x :: l').length := by
          simpa using Nat.lt_succ_of_le (List.length_filter_le _ _)
        have := ih _ hlen _ rfl h2
        exact List.mem_cons_of_mem x (List.mem_of_mem_filter this)

theorem pairwise_dedupSpec {α : Type} (eqv : α → α → Bool) (l : List α) :
    (dedupSpec eqv l).Pairwise (fun a b => eqv a b = false) := by
  generalize hn : l.length = n
  induction n using Nat.strong_induction_on generalizing l with
  | _ n ih =>
    match l with
    | [] => simp [dedupSpec]
    | x :: l' =>
      rw [dedupSpec]
      subst hn
      have hlen : (l'.filter (fun b => !eqv x b)).length < (x :: l').length := by
        simpa using Nat.lt_succ_of_le (List.length_filter_le _ _)
      refine List.Pairwise.cons (fun b hb => ?_) (ih _ hlen _ rfl)
      have hbf := mem_of_mem_dedupSpec _ _ _ hb
      have := List.of_mem_filter hbf
      simpa using this

theorem mem_dedupSpec_iff {α : Type} (eqv : α → α → Bool)
    (hlaw : ∀ a b : α, eqv a b = true ↔ a = b) (l : List α) (a : α) :
    a ∈ dedupSpec eqv l ↔ a ∈ l := by
  constructor
  · exact mem_of_mem_dedupSpec eqv l a
  · generalize hn : l.length = n
    induction n using Nat.strong_induction_on generalizing l with
    | _ n ih =>
      match l with
      | [] => intro h; simp at h
      | x :: l' =>
        intro h
        rw [dedupSpec]
        rcases List.mem_cons.mp h with h1 | h2
        · exact h1 ▸ List.mem_cons_self _ _
        · by_cases hx : a = x
          · exact hx ▸ List.mem_cons_self _ _
          · subst hn
            have hlen : (l'.filter (fun b => !eqv x b)).length < (x :: l').length := by
              simpa using Nat.lt_succ_of_le (List.length_filter_le _ _)
            refine List.mem_cons_of_mem _ (ih _ hlen _ rfl ?_)
            refine List.mem_filter.mpr ⟨h2, ?_⟩
            simp only [Bool.not_eq_true']
            exact (Bool.not_eq_true _).mp fun hc => hx ((hlaw x a).mp hc).symm

theorem edgeEq_false_lawful (e1 e2 : Edge) :
    edgeEq false e1 e2 = true ↔ e1 = e2 := by
  obtain ⟨a, b⟩ := e1
  obtain ⟨c, d⟩ := e2
  simp [edgeEq, Prod.ext_iff]

theorem getEdgesUnique_go (l : List Edge) : ∀ acc : List Edge,
    l.foldl (fun acc e => if e ∈ acc then acc else acc ++ [e]) acc =
      acc ++ dedupSpec (edgeEq false) (l.filter (fun e => decide (e ∉ acc))) := by
  induction l with
  | nil => intro acc; simp [dedupSpec]
  | cons e rest ih =>
    intro acc
    by_cases h : e ∈ acc
    · rw [List.foldl_cons, if_pos h, ih acc]
      congr 2
      rw [List.filter_cons]
      simp [h]
    · have hcons : (e :: rest).filter (fun b => decide (b ∉ acc)) =
          e :: rest.filter (fun b => decide (b ∉ acc)) := by
        rw [List.filter_cons]
        simp [h]
      rw [List.foldl_cons, if_neg h, ih (acc ++ [e]), hcons, dedupSpec]
      have hfil : rest.filter (fun b => decide (b ∉ acc ++ [e])) =
          (rest.filter (fun b => decide (b ∉ acc))).filter
            (fun b => !edgeEq false e b) := by
        rw [List.filter_filter]
        apply List.filter_congr
        intro b _
        by_cases hb : b ∈ acc
        · simp [hb]
        · by_cases hbe : b = e
          · subst hbe
            simp [hb, (edgeEq_false_lawful b b).mpr rfl]
          · have hne : edgeEq false e b = false := by
              rw [Bool.eq_false_iff]
              intro hc
              exact hbe ((edgeEq_false_lawful e b).mp hc).symm
            simp [hb, hbe, hne]
      rw [hfil]
      simp

theorem getEdgesUnique_eq_dedupSpec (l : List Edge) :
    getEdgesUnique l = dedupSpec (edgeEq false) l := by
  rw [getEdgesUnique, getEdgesUnique_go]
  simp

/-- C1: every call of the edge enumerator `get_between_spot_edge_array`
returns exactly the first-occurrence deduplication (`dedupSpec`) of the
enumerated candidate edges under the requested direction semantics, so
each retained edge is the first occurrence, in enumeration order, of its
duplicate class, and no two retained edges have identical (source,
destination) barcodes — under `undirected` also no two are equal as
unordered pairs.  The final dedup loop of `get_edges` likewise keeps
first occurrences under directed pair equality and leaves no
duplicates. -/
theorem C1_edge_enumerator_dedup
    (neighbourhood_bcs : List (String × List String))
    (neighbourhood_indices : List (ℕ × List ℕ)) (neigh_bool : List Bool)
    (count_cell_types : Bool) (cell_data : List (List ℚ)) (ncols : ℕ)
    (cutoff : ℚ) (undirected : Bool) (all_edges : List Edge) :
    get_between_spot_edge_array neighbourhood_bcs neighbourhood_indices
        neigh_bool count_cell_types cell_data ncols cutoff undirected =
      dedupSpec (edgeEq undirected)
        (buildEdges neighbourhood_bcs neighbourhood_indices neigh_bool
          count_cell_types cell_data ncols cutoff) ∧
    (get_between_spot_edge_array neighbourhood_bcs neighbourhood_indices
        neigh_bool count_cell_types cell_data ncols cutoff
        undirected).Pairwise (fun a b => edgeEq undirected a b = false) ∧
    getEdgesUnique all_edges = dedupSpec (edgeEq false) all_edges ∧
    (getEdgesUnique all_edges).Pairwise
      (fun a b => edgeEq false a b = false) := by
  refine ⟨pyDedup_eq_dedupSpec _ _, ?_, getEdgesUnique_eq_dedupSpec _, ?_⟩
  · rw [get_between_spot_edge_array, pyDedup_eq_dedupSpec]
    exact pairwise_dedupSpec _ _
  · rw [getEdgesUnique_eq_dedupSpec]
    exact pairwise_dedupSpec _ _

theorem interactPass_iff (cell_data : List (List ℚ)) (ncols : ℕ) (cutoff : ℚ)
    (idx : ℕ) (hidx : idx < cell_data.length)
    (hrect : ∀ row ∈ cell_data, row.length = ncols) :
    interactPass cell_data ncols cutoff idx = true ↔
      ∀ v ∈ cell_data.getD idx [], cutoff < v := by
  have hmem : cell_data.getD idx [] ∈ cell_data := by
    rw [List.getD_eq_getElem _ _ hidx]
    exact List.getElem_mem _
  rw [interactPass, beq_iff_eq, ← hrect _ hmem, List.countP_eq_length]
  constructor
  · intro h v hv
    simpa using h v hv
  · intro h v hv
    simpa using h v hv

/-- C3: with the categorical/proportional filter active
(`count_cell_types = true`), a candidate edge (s, d) is enumerated iff
some neighbourhood has source barcode `s` and contains `d` at an index
satisfying the neighbour predicate `neigh_bool` whose `cell_data` row
exceeds `cutoff` in every one of its columns jointly; and the directed
unique edge list of `get_between_spot_edge_array` contains exactly the
enumerated edges. -/
theorem C3_cell_type_filter (neighbourhood_bcs : List (String × List String))
    (neighbourhood_indices : List (ℕ × List ℕ)) (neigh_bool : List Bool)
    (cell_data : List (List ℚ)) (ncols : ℕ) (cutoff : ℚ)
    (hrect : ∀ row ∈ cell_data, row.length = ncols)
    (hrange : ∀ e ∈ neighbourhood_bcs.zip neighbourhood_indices,
      ∀ p ∈ e.1.2.zip e.2.2, p.2 < cell_data.length) :
    ∀ s d : String,
      ((s, d) ∈ buildEdges neighbourhood_bcs neighbourhood_indices neigh_bool
          true cell_data ncols cutoff ↔
        ∃ e ∈ neighbourhood_bcs.zip neighbourhood_indices, s = e.1.1 ∧
          ∃ p ∈ e.1.2.zip e.2.2, p.1 = d ∧ neigh_bool.getD p.2 false = true ∧
            ∀ v ∈ cell_data.getD p.2 [], cutoff < v) ∧
      ((s, d) ∈ get_between_spot_edge_array neighbourhood_bcs
          neighbourhood_indices neigh_bool true cell_data ncols cutoff false ↔
        (s, d) ∈ buildEdges neighbourhood_bcs neighbourhood_indices neigh_bool
          true cell_data ncols cutoff) := by
  intro s d
  constructor
  · rw [buildEdges]
    simp only [if_pos, List.mem_flatMap, List.mem_map, List.mem_filter]
    constructor
    · rintro ⟨e, he, p, ⟨⟨hpz, hnb⟩, hip⟩, heq⟩
      obtain ⟨hs, hd⟩ := Prod.mk.injEq .. ▸ heq
      refine ⟨e, he, hs.symm, p, hpz, hd, hnb, ?_⟩
      exact (interactPass_iff cell_data ncols cutoff p.2
        (hrange e he p hpz) hrect).mp hip
    · rintro ⟨e, he, hs, p, hpz, hd, hnb, hall⟩
      refine ⟨e, he, p, ⟨⟨hpz, hnb⟩, ?_⟩, ?_⟩
      · exact (interactPass_iff cell_data ncols cutoff p.2
          (hrange e he p hpz) hrect).mpr hall
      · rw [hs, hd]
  · rw [get_between_spot_edge_array, pyDedup_eq_dedupSpec]
    exact mem_dedupSpec_iff _ edgeEq_false_lawful _ _

theorem maskFilter_cons {α : Type} (x : α) (xs : List α) (b : Bool)
    (mask : List Bool) :
    maskFilter (x :: xs) (b :: mask) =
      (if b then [x] else []) ++ maskFilter xs mask := by
  cases b <;> simp [maskFilter]

theorem length_filter_range_getD {α : Type} (d : α) (p : α → Bool)
    (l : List α) :
    ((List.range l.length).filter (fun k => p (l.getD k d))).length =
      l.countP p := by
  induction l with
  | nil => simp
  | cons x xs ih =>
    have hcomp : ((fun k => p ((x :: xs).getD k d)) ∘ Nat.succ) =
        (fun k => p (xs.getD k d)) := by
      funext k
      simp
    rw [List.length_cons, List.range_succ_eq_map, List.filter_cons,
      List.filter_map, hcomp]
    simp only [List.getD_eq_getElem?_getD] at ih
    cases hx : p x with
    | true => simp [hx, ih, List.countP_cons]
    | false => simp [hx, ih, List.countP_cons]

theorem countP_maskFilter {α : Type} (d : α) (p : α → Bool) (xs : List α) :
    ∀ mask : List Bool, xs.length = mask.length →
      (maskFilter xs mask).countP p =
        (List.range mask.length).countP
          (fun i => mask.getD i false && p (xs.getD i d)) := by
  induction xs with
  | nil =>
    intro mask h
    cases mask with
    | nil => simp [maskFilter]
    | cons b ms => simp at h
  | cons x xs ih =>
    intro mask h
    cases mask with
    | nil => simp at h
    | cons b ms =>
      have hcomp : ((fun i => (b :: ms).getD i false && p ((x :: xs).getD i d))
          ∘ Nat.succ) = (fun i => ms.getD i false && p (xs.getD i d)) := by
        funext i
        simp
      rw [List.length_cons, List.range_succ_eq_map, List.countP_cons,
        List.countP_map, hcomp, maskFilter_cons, List.countP_append,
        ih ms (by simpa using h)]
      cases b with
      | true =>
        cases hx : p x <;> simp [hx, List.countP_cons, Nat.add_comm]
      | false => simp

theorem ccSpotsMask_length (inp : CountCoreInput) :
    (ccSpotsMask inp).length = inp.neigh_bool.length := by
  simp [ccSpotsMask]

theorem ccSpotsMask_getD (inp : CountCoreInput) (i : ℕ)
    (hi : i < inp.neigh_bool.length) :
    (ccSpotsMask inp).getD i false =
      (inp.spot_indices.contains i && inp.neigh_bool.getD i false) := by
  have hlen : i < (ccSpotsMask inp).length := by
    rw [ccSpotsMask_length]
    exact hi
  rw [List.getD_eq_getElem _ _ hlen, List.getD_eq_getElem _ _ hi]
  simp [ccSpotsMask, List.getElem_zipWith]

theorem ccWithinEdgeList_length (inp : CountCoreInput)
    (hlen : inp.mix_props.length = inp.neigh_bool.length) :
    (ccWithinEdgeList inp).length =
      (List.range inp.neigh_bool.length).countP (fun i =>
        inp.spot_indices.contains i && inp.neigh_bool.getD i false &&
          (inp.mix_props.getD i []).any (fun v => decide (inp.cutoff < v))) := by
  rw [ccWithinEdgeList, List.length_map,
    length_filter_range_getD (0 : ℕ) (fun c => decide (0 < c)),
    ccWithinCounts, List.countP_map]
  have hpt : ∀ row ∈ maskFilter inp.mix_props (ccSpotsMask inp),
      ((fun c => decide (0 < c)) ∘
        (fun row : List ℚ => row.countP (fun v => decide (inp.cutoff < v)))) row
        = true ↔ row.any (fun v => decide (inp.cutoff < v)) = true := by
    intro row _
    simp [List.countP_pos_iff, List.any_eq_true]
  rw [List.countP_congr hpt,
    countP_maskFilter ([] : List ℚ) (fun row => row.any (fun v => decide (inp.cutoff < v)))
      inp.mix_props (ccSpotsMask inp) (by rw [ccSpotsMask_length]; exact hlen),
    ccSpotsMask_length]
  apply List.countP_congr
  intro i hi
  rw [ccSpotsMask_getD inp i (List.mem_range.mp hi)]

/-- C2 (amended): in mixture mode with a nonempty `spot_indices`,
`count_core` short-circuits to the per-spot counting rule — counting the
enumerated spots passing `neigh_bool` whose proportion exceeds the cutoff
in some label — whenever every enumerated spot's neighbour list
*contains* the spot itself; the sole-self-neighbour configuration is a
special case of that test, but it is not equivalent to it, and the
pairwise construction via `get_between_spot_edge_array` is used exactly
when some enumerated spot's neighbour list lacks the spot itself. -/
theorem C2_within_spot_short_circuit (inp : CountCoreInput)
    (hmix : inp.mix_mode = true) (hne : inp.spot_indices ≠ []) :
    ((∀ p ∈ ccNeighbourhoodIndices inp, p.2 = [p.1]) →
      ccWithinConfig inp = true) ∧
    (ccWithinConfig inp = true → inp.mix_props.length = inp.neigh_bool.length →
      count_core inp false = Sum.inr
        ((List.range inp.neigh_bool.length).countP (fun i =>
          inp.spot_indices.contains i && inp.neigh_bool.getD i false &&
            (inp.mix_props.getD i []).any
              (fun v => decide (inp.cutoff < v))))) ∧
    (ccWithinConfig inp = false →
      count_core inp false = Sum.inr
        (get_between_spot_edge_array (ccNeighbourhoodBcs inp)
          (ccNeighbourhoodIndices inp) inp.neigh_bool true inp.mix_props
          inp.label_set.length inp.cutoff true).length) := by
  have hcc : count_core inp false = Sum.inr (ccEdgeEntries inp).length := by
    simp [count_core, hne]
  refine ⟨?_, ?_, ?_⟩
  · intro hsole
    rw [ccWithinConfig, List.all_eq_true]
    intro p hp
    rw [hsole p hp]
    simp
  · intro hwc hlen
    have hent : ccEdgeEntries inp = (ccWithinEdgeList inp).map EdgeEntry.single := by
      rw [ccEdgeEntries, hmix, if_pos rfl, if_pos hwc]
    rw [hcc, hent, List.length_map, ccWithinEdgeList_length inp hlen]
  · intro hwc
    have hent : ccEdgeEntries inp =
        (get_between_spot_edge_array (ccNeighbourhoodBcs inp)
          (ccNeighbourhoodIndices inp) inp.neigh_bool true inp.mix_props
          inp.label_set.length inp.cutoff true).map
          (fun e => EdgeEntry.pair e.1 e.2) := by
      rw [ccEdgeEntries, hmix, if_pos rfl, if_neg (by simp [hwc])]
    rw [hcc, hent, List.length_map]

/-- Sole-self-neighbour mixture-mode input for the C2 witness. -/
def inpC2w : CountCoreInput :=
  { obs_names := ["s0"], neighbours := [[0]], spot_indices := [0],
    neigh_bool := [true], mix_props := [[1]], cutoff := 0, mix_mode := true,
    cell_types := [], label_set := ["A"] }

theorem C2_within_spot_short_circuit_witness :
    inpC2w.mix_mode = true ∧ inpC2w.spot_indices ≠ [] ∧
    (((∀ p ∈ ccNeighbourhoodIndices inpC2w, p.2 = [p.1]) →
      ccWithinConfig inpC2w = true) ∧
    (ccWithinConfig inpC2w = true →
      inpC2w.mix_props.length = inpC2w.neigh_bool.length →
      count_core inpC2w false = Sum.inr
        ((List.range inpC2w.neigh_bool.length).countP (fun i =>
          inpC2w.spot_indices.contains i && inpC2w.neigh_bool.getD i false &&
            (inpC2w.mix_props.getD i []).any
              (fun v => decide (inpC2w.cutoff < v))))) ∧
    (ccWithinConfig inpC2w = false →
      count_core inpC2w false = Sum.inr
        (get_between_spot_edge_array (ccNeighbourhoodBcs inpC2w)
          (ccNeighbourhoodIndices inpC2w) inpC2w.neigh_bool true
          inpC2w.mix_props inpC2w.label_set.length inpC2w.cutoff
          true).length)) :=
  ⟨rfl, by decide, C2_within_spot_short_circuit inpC2w rfl (by decide)⟩

/-- Mixture-mode input where each enumerated spot's neighbour list
contains itself *and* another spot — not the sole-self-neighbour
configuration. -/
def inpC2x : CountCoreInput :=
  { obs_names := ["s0", "s1"], neighbours := [[0, 1], [1, 0]],
    spot_indices := [0, 1], neigh_bool := [true, true],
    mix_props := [[1], [1]], cutoff := 0, mix_mode := true,
    cell_types := [], label_set := ["A"] }

/-- C2 (counterexample): on `inpC2x` — mixture mode, every spot's
neighbour list contains itself among others, so *not* the configuration
where every spot's sole neighbour is itself — `count_core` still takes
the short-circuit and returns the per-spot count 2, while the pairwise
edge construction the claim prescribes for this configuration would
return 3 unique edges. -/
theorem C2_counterexample :
    (¬ ∀ p ∈ ccNeighbourhoodIndices inpC2x, p.2 = [p.1]) ∧
    count_core inpC2x false = Sum.inr 2 ∧
    (get_between_spot_edge_array (ccNeighbourhoodBcs inpC2x)
      (ccNeighbourhoodIndices inpC2x) inpC2x.neigh_bool true inpC2x.mix_props
      inpC2x.label_set.length inpC2x.cutoff true).length = 3 := by
  refine ⟨by decide, by decide, by decide⟩

/-- C10: `count_core` called with an empty `spot_indices` array returns
the empty edge list when `return_edges = true` and the count 0 otherwise,
for every value of the remaining inputs — in particular without
consulting the neighbourhood or cell-type data. -/
theorem C10_empty_spot_indices (inp : CountCoreInput) (return_edges : Bool)
    (h : inp.spot_indices = []) :
    count_core inp return_edges =
      if return_edges then Sum.inl [] else Sum.inr 0 := by
  rw [count_core, if_pos (by simp [h])]

/-- Input with nonempty neighbourhood and cell-type data but empty
`spot_indices`, for the C10 witness. -/
def inpC10 : CountCoreInput :=
  { obs_names := ["s0"], neighbours := [[0]], spot_indices := [],
    neigh_bool := [false], mix_props := [[2]], cutoff := 1, mix_mode := false,
    cell_types := ["A"], label_set := ["A", "B"] }

theorem C10_empty_spot_indices_witness :
    inpC10.spot_indices = [] ∧
    count_core inpC10 true = (if true then Sum.inl [] else Sum.inr 0) ∧
    count_core inpC10 false = (if false then Sum.inl [] else Sum.inr 0) :=
  ⟨rfl, C10_empty_spot_indices inpC10 true rfl,
    C10_empty_spot_indices inpC10 false rfl⟩

/-! ## Lemmas for the `run` LR-pair filter -/

theorem maskFilter_map_mask {α β : Type} (pred : β → Bool) :
    ∀ (xs : List α) (ys : List β), xs.length = ys.length →
      maskFilter xs (ys.map pred) =
        ((xs.zip ys).filter (fun p => pred p.2)).map Prod.fst := by
  intro xs
  induction xs with
  | nil => intro ys h; simp [maskFilter]
  | cons x xs ih =>
    intro ys h
    cases ys with
    | nil => simp at h
    | cons y ys =>
      rw [List.map_cons, maskFilter_cons, List.zip_cons_cons, List.filter_cons]
      cases hy : pred y <;> simp [ih ys (by simpa using h), hy]

theorem filter_zip_map_snd {α β : Type} (pred : β → Bool) :
    ∀ (xs : List α) (ys : List β), xs.length = ys.length →
      ((xs.zip ys).filter (fun p => pred p.2)).map Prod.snd =
        ys.filter pred := by
  intro xs
  induction xs with
  | nil =>
    intro ys h
    cases ys with
    | nil => simp
    | cons y ys => simp at h
  | cons x xs ih =>
    intro ys h
    cases ys with
    | nil => simp at h
    | cons y ys =>
      rw [List.zip_cons_cons, List.filter_cons, List.filter_cons]
      cases hy : pred y <;> simp [ih ys (by simpa using h), hy]

theorem maskFilter_self_map {β : Type} (pred : β → Bool) (ys : List β) :
    maskFilter ys (ys.map pred) = ys.filter pred := by
  induction ys with
  | nil => simp [maskFilter]
  | cons y ys ih =>
    rw [List.map_cons, maskFilter_cons, List.filter_cons]
    cases hy : pred y <;> simp [ih, hy]

/-- C4 (amended): `run`'s filter keeps exactly the LR pairs whose count
of spots with a nonzero score strictly exceeds `min_spots` — so it also
removes pairs whose count equals `min_spots`, not only those strictly
below it — and the filtered pair list and filtered score columns are the
two projections of the same filtered zip, so pair `i` names column
`i`. -/
theorem C4_lr_pair_filter (lrs : List String) (cols : List (List ℚ))
    (min_spots : ℕ) (hlen : lrs.length = cols.length) :
    (lr_filter lrs cols min_spots).1 =
      ((lrs.zip cols).filter (fun p =>
        decide (min_spots < p.2.countP (fun v => decide (0 < v))))).map
        Prod.fst ∧
    (lr_filter lrs cols min_spots).2 =
      ((lrs.zip cols).filter (fun p =>
        decide (min_spots < p.2.countP (fun v => decide (0 < v))))).map
        Prod.snd := by
  constructor
  · rw [lr_filter]
    exact maskFilter_map_mask _ lrs cols hlen
  · rw [lr_filter]
    rw [show ((maskFilter lrs _, maskFilter cols _) :
        List String × List (List ℚ)).2 = maskFilter cols
        (cols.map (fun col =>
          decide (min_spots < col.countP (fun v => decide (0 < v))))) from rfl,
      maskFilter_self_map, ← filter_zip_map_snd _ lrs cols hlen]

theorem C4_lr_pair_filter_witness :
    (["a", "b"] : List String).length = ([[(1 : ℚ)], [0]] : List (List ℚ)).length ∧
    ((lr_filter ["a", "b"] [[(1 : ℚ)], [0]] 0).1 =
      (((["a", "b"] : List String).zip ([[(1 : ℚ)], [0]])).filter (fun p =>
        decide (0 < p.2.countP (fun v => decide (0 < v))))).map Prod.fst ∧
    (lr_filter ["a", "b"] [[(1 : ℚ)], [0]] 0).2 =
      (((["a", "b"] : List String).zip ([[(1 : ℚ)], [0]])).filter (fun p =>
        decide (0 < p.2.countP (fun v => decide (0 < v))))).map Prod.snd) :=
  ⟨rfl, C4_lr_pair_filter ["a", "b"] [[(1 : ℚ)], [0]] 0 rfl⟩

/-- C4 (counterexample): with a single LR pair whose scores are all zero
and `min_spots = 0`, the pair's nonzero-spot count 0 is not below
`min_spots`, yet `run`'s filter removes the pair. -/
theorem C4_counterexample :
    (lr_filter ["A_B"] [[(0 : ℚ)]] 0).1 = [] ∧
    ¬ ([(0 : ℚ)].countP (fun v => decide (0 < v)) < 0) := by
  refine ⟨by decide, by decide⟩

/-- The empty starting dataset for the C5 counterexample. -/
def adataEmpty : Adata :=
  { spot_neighbours := none, het := none, lr_summary := none,
    per_lr_results := none }

/-- C5 (counterexample): a run whose only LR pair is filtered out exits
early with the diagnostic message — but the dataset is *not* left
unmodified: the spot-neighbour annotation has already been written. -/
theorem C5_counterexample :
    (run [] false [] ["A_B"] [[(0 : ℚ)]] 10 id adataEmpty).2 =
      RunResult.earlyExit "Exiting due to lack of valid LR pairs." ∧
    (run [] false [] ["A_B"] [[(0 : ℚ)]] 10 id adataEmpty).1 ≠ adataEmpty := by
  refine ⟨by decide, by decide⟩

/-- C5 (amended): when the filtered LR list is empty, `run` returns
early (no exception is modelled or raised on this path) with the
diagnostic message, and writes no LR-testing results — `lr_summary` and
the per-LR result slots are unchanged — but the dataset is modified
rather than untouched: the spot-neighbour annotation, and the
heterogeneity values when cell heterogeneity applies, were stored before
the early exit. -/
theorem C5_early_exit (neighbours : List (List ℕ)) (cell_het : Bool)
    (het_vals : List ℚ) (lrs : List String) (cols : List (List ℚ))
    (min_spots : ℕ) (testingWrite : Adata → Adata) (a : Adata)
    (h : (lr_filter lrs cols min_spots).1 = []) :
    (run neighbours cell_het het_vals lrs cols min_spots testingWrite a).2 =
      RunResult.earlyExit "Exiting due to lack of valid LR pairs." ∧
    (run neighbours cell_het het_vals lrs cols min_spots testingWrite
      a).1.lr_summary = a.lr_summary ∧
    (run neighbours cell_het het_vals lrs cols min_spots testingWrite
      a).1.per_lr_results = a.per_lr_results ∧
    (run neighbours cell_het het_vals lrs cols min_spots testingWrite
      a).1.spot_neighbours = some (neighbours.map
        (fun xs => String.intercalate "," (xs.map toString))) ∧
    (run neighbours cell_het het_vals lrs cols min_spots testingWrite
      a).1.het = (if cell_het then some het_vals else a.het) := by
  cases cell_het <;> simp [run, h]

theorem C5_early_exit_witness :
    (lr_filter ["A_B"] [[(0 : ℚ)]] 10).1 = [] ∧
    ((run [] true [1] ["A_B"] [[(0 : ℚ)]] 10 id adataEmpty).2 =
      RunResult.earlyExit "Exiting due to lack of valid LR pairs." ∧
    (run [] true [1] ["A_B"] [[(0 : ℚ)]] 10 id adataEmpty).1.lr_summary =
      adataEmpty.lr_summary ∧
    (run [] true [1] ["A_B"] [[(0 : ℚ)]] 10 id adataEmpty).1.per_lr_results =
      adataEmpty.per_lr_results ∧
    (run [] true [1] ["A_B"] [[(0 : ℚ)]] 10 id adataEmpty).1.spot_neighbours =
      some (([] : List (List ℕ)).map
        (fun xs => String.intercalate "," (xs.map toString))) ∧
    (run [] true [1] ["A_B"] [[(0 : ℚ)]] 10 id adataEmpty).1.het =
      (if true then some [(1 : ℚ)] else adataEmpty.het)) :=
  ⟨by decide, C5_early_exit [] true [1] ["A_B"] [[(0 : ℚ)]] 10 id adataEmpty
    (by decide)⟩

/-! ## Lemmas for the `run_cci` aggregation loop -/

theorem run_cci_foldl_raw {n : ℕ} (intMat : String → Fin n → Fin n → ℤ)
    (pvals : String → Fin n → Fin n → ℚ) (c : ℚ) (l : List String) :
    ∀ (acc : CCIAccum n) (i j : Fin n),
      (l.foldl (run_cci_step intMat pvals c) acc).raw_matrix i j =
        acc.raw_matrix i j + (l.map (fun lr => intMat lr i j)).sum := by
  induction l with
  | nil => intro acc i j; simp
  | cons lr rest ih =>
    intro acc i j
    rw [List.foldl_cons, ih, List.map_cons, List.sum_cons]
    simp only [run_cci_step]
    ring

theorem run_cci_foldl_all {n : ℕ} (intMat : String → Fin n → Fin n → ℤ)
    (pvals : String → Fin n → Fin n → ℚ) (c : ℚ) (l : List String) :
    ∀ (acc : CCIAccum n) (i j : Fin n),
      (l.foldl (run_cci_step intMat pvals c) acc).all_matrix i j =
        acc.all_matrix i j +
          (l.map (fun lr => sigIntMatrix (intMat lr) (pvals lr) c i j)).sum := by
  induction l with
  | nil => intro acc i j; simp
  | cons lr rest ih =>
    intro acc i j
    rw [List.foldl_cons, ih, List.map_cons, List.sum_cons]
    simp only [run_cci_step]
    ring

theorem run_cci_foldl_perlr_raw {n : ℕ} (intMat : String → Fin n → Fin n → ℤ)
    (pvals : String → Fin n → Fin n → ℚ) (c : ℚ) (l : List String) :
    ∀ acc : CCIAccum n,
      (l.foldl (run_cci_step intMat pvals c) acc).per_lr_cci_raw =
        acc.per_lr_cci_raw ++ l.map (fun lr => (lr, intMat lr)) := by
  induction l with
  | nil => intro acc; simp
  | cons lr rest ih =>
    intro acc
    rw [List.foldl_cons, ih, List.map_cons]
    simp [run_cci_step]

theorem run_cci_foldl_perlr_sig {n : ℕ} (intMat : String → Fin n → Fin n → ℤ)
    (pvals : String → Fin n → Fin n → ℚ) (c : ℚ) (l : List String) :
    ∀ acc : CCIAccum n,
      (l.foldl (run_cci_step intMat pvals c) acc).per_lr_cci =
        acc.per_lr_cci ++
          l.map (fun lr => (lr, sigIntMatrix (intMat lr) (pvals lr) c)) := by
  induction l with
  | nil => intro acc; simp
  | cons lr rest ih =>
    intro acc
    rw [List.foldl_cons, ih, List.map_cons]
    simp [run_cci_step]

/-- C6: over `run_cci`'s loop on the tested LR pairs, the stored raw
aggregate equals the elementwise sum of the per-pair raw count matrices,
the significant aggregate equals the elementwise sum of the per-pair
significance-zeroed matrices — each being the raw matrix with cells
whose p-value exceeds `p_cutoff` set to zero — and the per-pair
dictionaries record the raw matrix unchanged alongside its zeroed
copy. -/
theorem C6_aggregate_sums {n : ℕ} (best_lrs : List String)
    (intMat : String → Fin n → Fin n → ℤ)
    (pvals : String → Fin n → Fin n → ℚ) (p_cutoff : ℚ) :
    (∀ i j, (run_cci_loop best_lrs intMat pvals p_cutoff).raw_matrix i j =
      (best_lrs.map (fun lr => intMat lr i j)).sum) ∧
    (∀ i j, (run_cci_loop best_lrs intMat pvals p_cutoff).all_matrix i j =
      (best_lrs.map (fun lr =>
        sigIntMatrix (intMat lr) (pvals lr) p_cutoff i j)).sum) ∧
    (run_cci_loop best_lrs intMat pvals p_cutoff).per_lr_cci_raw =
      best_lrs.map (fun lr => (lr, intMat lr)) ∧
    (run_cci_loop best_lrs intMat pvals p_cutoff).per_lr_cci =
      best_lrs.map (fun lr =>
        (lr, sigIntMatrix (intMat lr) (pvals lr) p_cutoff)) := by
  refine ⟨?_, ?_, ?_, ?_⟩
  · intro i j
    rw [run_cci_loop, run_cci_foldl_raw]
    simp
  · intro i j
    rw [run_cci_loop, run_cci_foldl_all]
    simp
  · rw [run_cci_loop, run_cci_foldl_perlr_raw]
    simp
  · rw [run_cci_loop, run_cci_foldl_perlr_sig]
    simp

/-- C8: the prior-results guard of `run_cci` never fires when
`'lr_summary'` is present in `adata.uns`, even when its columns lack
`'n_spots_sig'` (the significance counts) — the computed `ran_sig` flag
is swallowed by the `and` in `not ran_lr and not ran_sig` — so invoking
`run_cci` after scoring but before significance testing raises no error,
contradicting the claim and the guard's own error message. -/
theorem C8_guard_dead_branch :
    (∀ uns_keys lr_summary_cols : List String,
      run_cci_raises uns_keys lr_summary_cols =
        !uns_keys.contains "lr_summary") ∧
    run_cci_raises ["lr_summary"] ["n_spots"] = false := by
  constructor
  · intro uns_keys lr_summary_cols
    rw [run_cci_raises]
    cases h : uns_keys.contains "lr_summary" <;> simp [h]
  · rfl

/-- C9: in `count`, when `distance` is unspecified (`None`) — which is
not the within-spot `distance=0` mode — the radius used for the ball
query is the platform spot diameter times the tissue scale factor times
2. -/
theorem C9_default_radius (spot_diameter_fullres tissue_scalef : ℚ) :
    count_radius none spot_diameter_fullres tissue_scalef =
      some (spot_diameter_fullres * tissue_scalef * 2) := by
  rw [count_radius, if_neg (by simp)]

/-! ## Lemmas for `count` / `create_grids` neighbour sets -/

theorem intRange_self_succ (a : ℤ) : intRange a (a + 1) = [a] := by
  rw [intRange]
  have h1 : a + 1 - a = 1 := by ring
  rw [h1, show List.range ((1 : ℤ)).toNat = [0] from rfl, List.map_cons,
    List.map_nil]
  norm_num

theorem gridNeighCandidates_radius_zero (num_row num_col n : ℕ)
    (hrow : 0 < num_row) (hn : n < num_row * num_col) :
    gridNeighCandidates num_row num_col 0 n = [(n : ℤ)] := by
  have hrow' : (0 : ℤ) < (num_row : ℤ) := by exact_mod_cast hrow
  simp only [gridNeighCandidates, Nat.cast_zero, sub_zero, add_zero,
    intRange_self_succ, List.flatMap_cons, List.flatMap_nil, List.map_cons,
    List.map_nil, List.append_nil]
  have hmod_nonneg : 0 ≤ (n : ℤ) % (num_row : ℤ) :=
    Int.emod_nonneg _ (by exact_mod_cast hrow.ne')
  have hmod_lt : (n : ℤ) % (num_row : ℤ) < (num_row : ℤ) :=
    Int.emod_lt_of_pos _ hrow'
  have hdiv_nonneg : 0 ≤ (n : ℤ) / (num_row : ℤ) :=
    Int.ediv_nonneg (by positivity) (by positivity)
  have hdiv_lt : (n : ℤ) / (num_row : ℤ) < (num_col : ℤ) := by
    rw [Int.ediv_lt_iff_lt_mul hrow']
    have : (n : ℤ) < (num_row : ℤ) * (num_col : ℤ) := by exact_mod_cast hn
    linarith [this]
  rw [gridVal, if_pos ⟨hmod_nonneg, hmod_lt, hdiv_nonneg, hdiv_lt⟩]
  have hsplit := Int.ediv_add_emod (n : ℤ) (num_row : ℤ)
  have : (n : ℤ) / (num_row : ℤ) * (num_row : ℤ) + (n : ℤ) % (num_row : ℤ) =
      (n : ℤ) := by linarith [hsplit]
  rw [this]

/-- C7 (counterexample): in `count`, with the single spot at (0, 0) and
the positive neighbour distance 1, the spot's ball-query neighbour list
contains the spot itself — the query result is used without removing the
query spot. -/
theorem C7_counterexample :
    (0 : ℚ) < 1 ∧ 0 ∈ count_neighbours [((0 : ℚ), (0 : ℚ))] 1 0 := by
  constructor
  · norm_num
  · rw [count_neighbours, query_ball_point]
    apply List.mem_filter.mpr
    constructor
    · simp
    · norm_num [sqDist]

/-- C7 (amended): in `count`, a spot's ball-query neighbour list always
contains the spot itself, for any radius (the self index is never
excluded); in `create_grids` the claim's invariant does hold: a grid's
neighbour set excludes the grid itself whenever `radius > 0`, and under
`radius = 0` it is exactly the grid itself. -/
theorem C7_neighbour_self (coords : List (ℚ × ℚ)) (r : ℚ) (i : ℕ)
    (num_row num_col radius n : ℕ) (hi : i < coords.length)
    (hrow : 0 < num_row) (hn : n < num_row * num_col) :
    i ∈ count_neighbours coords r i ∧
    (0 < radius → gridNeighMem num_row num_col radius n (n : ℤ) = false) ∧
    (radius = 0 → ∀ g : ℤ,
      gridNeighMem num_row num_col radius n g = true ↔ g = (n : ℤ)) := by
  refine ⟨?_, ?_, ?_⟩
  · rw [count_neighbours, query_ball_point]
    apply List.mem_filter.mpr
    refine ⟨List.mem_range.mpr hi, ?_⟩
    have hz : sqDist (coords.getD i (0, 0)) (coords.getD i (0, 0)) = 0 := by
      simp [sqDist]
    show decide (sqDist (coords.getD i (0, 0)) (coords.getD i (0, 0)) ≤ r ^ 2)
      = true
    rw [decide_eq_true_eq, hz]
    exact sq_nonneg r
  · intro hrad
    simp [gridNeighMem, hrad]
  · intro hrad g
    subst hrad
    rw [gridNeighMem, gridNeighCandidates_radius_zero num_row num_col n hrow hn]
    simp only [List.mem_singleton, Bool.and_eq_true, bne_iff_ne,
      decide_eq_true_eq]
    constructor
    · intro h
      exact h.1.1
    · intro h
      subst h
      refine ⟨⟨rfl, ?_⟩, ?_⟩
      · simp
      · omega

theorem C7_neighbour_self_witness :
    ((0 : ℕ) < ([((0 : ℚ), (0 : ℚ))] : List (ℚ × ℚ)).length ∧
      (0 : ℕ) < 2 ∧ (3 : ℕ) < 2 * 2) ∧
    (0 ∈ count_neighbours [((0 : ℚ), (0 : ℚ))] 5 0 ∧
      (0 < (1 : ℕ) → gridNeighMem 2 2 1 3 (3 : ℤ) = false) ∧
      ((1 : ℕ) = 0 → ∀ g : ℤ,
        gridNeighMem 2 2 1 3 g = true ↔ g = (3 : ℤ))) ∧
    (0 ∈ count_neighbours [((0 : ℚ), (0 : ℚ))] 5 0 ∧
      (0 < (0 : ℕ) → gridNeighMem 2 2 0 3 (3 : ℤ) = false) ∧
      ((0 : ℕ) = 0 → ∀ g : ℤ,
        gridNeighMem 2 2 0 3 g = true ↔ g = (3 : ℤ))) :=
  ⟨⟨by decide, by decide, by decide⟩,
    C7_neighbour_self [((0 : ℚ), (0 : ℚ))] 5 0 2 2 1 3 (by decide) (by decide)
      (by decide),
    C7_neighbour_self [((0 : ℚ), (0 : ℚ))] 5 0 2 2 0 3 (by decide) (by decide)
      (by decide)⟩

theorem C3_cell_type_filter_witness :
    (∀ row ∈ ([[(1 : ℚ)], [1]] : List (List ℚ)), row.length = 1) ∧
    (∀ e ∈ ([("s0", ["s1"])] : List (String × List String)).zip
        ([(0, [1])] : List (ℕ × List ℕ)),
      ∀ p ∈ e.1.2.zip e.2.2,
        p.2 < ([[(1 : ℚ)], [1]] : List (List ℚ)).length) ∧
    ((("s0", "s1") ∈ buildEdges [("s0", ["s1"])] [(0, [1])] [true, true] true
        [[(1 : ℚ)], [1]] 1 0 ↔
      ∃ e ∈ ([("s0", ["s1"])] : List (String × List String)).zip
          ([(0, [1])] : List (ℕ × List ℕ)), "s0" = e.1.1 ∧
        ∃ p ∈ e.1.2.zip e.2.2, p.1 = "s1" ∧
          ([true, true] : List Bool).getD p.2 false = true ∧
          ∀ v ∈ ([[(1 : ℚ)], [1]] : List (List ℚ)).getD p.2 [], (0 : ℚ) < v) ∧
    (("s0", "s1") ∈ get_between_spot_edge_array [("s0", ["s1"])] [(0, [1])]
        [true, true] true [[(1 : ℚ)], [1]] 1 0 false ↔
      ("s0", "s1") ∈ buildEdges [("s0", ["s1"])] [(0, [1])] [true, true] true
        [[(1 : ℚ)], [1]] 1 0)) :=
  ⟨by decide, by decide,
    C3_cell_type_filter [("s0", ["s1"])] [(0, [1])] [true, true]
      [[(1 : ℚ)], [1]] 1 0 (by decide) (by decide) "s0" "s1"⟩

end StLearn
